/-
  Verification of the visualSchedule repository's scheduling core.

  Shallow embedding conventions:
  * Time instants are modelled as integers counting minutes.  Every event
    time that reaches the functions verified here flows through dayjs
    `format("HH:mm")` / `"HH:mm"` parsing or through whole-minute calendar
    slots, so `dayjs(...).diff(other, "minute")` is exact integer
    subtraction at this granularity.
  * JavaScript `Map`-of-running-totals folds are embedded per key: the
    total for a key equals the fold of the events carrying that key, which
    is what `totals.get(id)` yields after the `forEach` in the source.
  * The hosted Supabase store is not part of src/; where its behaviour is
    needed it is modelled from the spec (see the doc comments marked
    `Modelled from the spec:`).
-/
import Mathlib

namespace VisualSchedule

/-! ## Time-range arithmetic (src/app/(dashboard)/schedule/page.tsx) -/

/-- A time string as held by the calendar UI: either a short wall-clock
label `"HH:mm"` or an absolute (ISO) instant.  `short h m` carries the
two parsed components; `iso t` carries the absolute instant in minutes. -/
inductive TimeStr where
  | short (h m : ℕ)
  | iso (t : ℤ)
deriving DecidableEq, Repr

/-- `parseTime` from SchedulePage (schedule/page.tsx:261-267): a string
matching `^\d{2}:\d{2}$` is combined with the currently displayed day
(`currentDate`, given here as the minute instant of that day's midnight);
anything else is parsed as an absolute instant. -/
def parseTime (currentDate : ℤ) : TimeStr → ℤ
  | .short h m => currentDate + (h * 60 + m)
  | .iso t => t

/-- The time computation inside `handleEventDrop`
(schedule/page.tsx:274-291): `duration = originalEnd.diff(originalStart,
"minute")`, `newEnd = newStart.add(duration, "minute")`.  Returns the
`(newStart, newEnd)` pair of the shifted event. -/
def handleEventDropTimes (currentDate : ℤ) (evStart evEnd nextStart : TimeStr) : ℤ × ℤ :=
  let originalStart := parseTime currentDate evStart
  let originalEnd := parseTime currentDate evEnd
  let duration := originalEnd - originalStart
  let newStart := parseTime currentDate nextStart
  (newStart, newStart + duration)

/-- The duration used by `handleEventDrop` (schedule/page.tsx:279-281):
the raw `diff` in minutes, with no clamping. -/
def dropDurationMinutes (originalStart originalEnd : ℤ) : ℤ :=
  originalEnd - originalStart

/-! ## Workload summaries (src/app/(dashboard)/staff/page.tsx, ReportsPage) -/

/-- A schedule event row as returned by the range query
(`ScheduleEvent` in staff/page.tsx). -/
structure ScheduleEvent where
  id : String
  title : String
  description : Option String
  start_at : ℤ
  end_at : ℤ
  employee_id : String
  color : Option String
deriving DecidableEq, Repr

/-- An employee as returned by `/employees`. -/
structure Employee where
  id : String
  name : String
deriving DecidableEq, Repr

/-- The per-event duration used in the `summaries` memo
(staff/page.tsx:398-400): `Math.max(end.diff(start, "minute"), 0)`. -/
def eventDurationMinutes (start_at end_at : ℤ) : ℤ :=
  max (end_at - start_at) 0

/-- Duration of an event row. -/
def ScheduleEvent.duration (e : ScheduleEvent) : ℤ :=
  eventDurationMinutes e.start_at e.end_at

/-- `totals.get(id).minutes` after the `forEach` fold
(staff/page.tsx:397-409): the summed clamped durations of the events
carrying this employee id. -/
def minutesFor (events : List ScheduleEvent) (eid : String) : ℤ :=
  ((events.filter (fun e => e.employee_id == eid)).map ScheduleEvent.duration).sum

/-- `totals.get(id).events` after the `forEach` fold: how many events
carry this employee id. -/
def countFor (events : List ScheduleEvent) (eid : String) : ℕ :=
  (events.filter (fun e => e.employee_id == eid)).length

/-- One row of the workload table (`EmployeeSummary` in staff/page.tsx). -/
structure EmployeeSummary where
  id : String
  name : String
  eventCount : ℕ
  totalMinutes : ℤ
  totalHours : ℚ
  avgHours : ℚ
deriving DecidableEq, Repr

/-- Building one summary row (staff/page.tsx:416-428): `entry` is the
fold result for this employee (zero when absent), `totalHours =
entry.minutes / 60`, `avgHours = entry.events ? totalHours /
entry.events : 0`. -/
def mkRow (events : List ScheduleEvent) (emp : Employee) : EmployeeSummary :=
  let minutes := minutesFor events emp.id
  let count := countFor events emp.id
  let totalHours : ℚ := (minutes : ℚ) / 60
  { id := emp.id
    name := emp.name
    eventCount := count
    totalMinutes := minutes
    totalHours := totalHours
    avgHours := if count = 0 then 0 else totalHours / (count : ℚ) }

/-- The comparator of `rows.sort((a, b) => b.totalMinutes -
a.totalMinutes)` (staff/page.tsx:430), as the ordering relation of the
stable sort JavaScript performs: `a` may precede `b` exactly when
`b.totalMinutes ≤ a.totalMinutes` (descending totals, ties keep their
input order). -/
def summaryOrder (a b : EmployeeSummary) : Prop :=
  b.totalMinutes ≤ a.totalMinutes

instance : DecidableRel summaryOrder := fun a b =>
  inferInstanceAs (Decidable (b.totalMinutes ≤ a.totalMinutes))

instance : IsTotal EmployeeSummary summaryOrder :=
  ⟨fun a b => le_total b.totalMinutes a.totalMinutes⟩

instance : IsTrans EmployeeSummary summaryOrder :=
  ⟨fun _ _ _ h h' => le_trans h' h⟩

/-- The `summaries` value of the memo (staff/page.tsx:394-437): map every
employee to its row, then stable-sort descending by `totalMinutes`.
`List.insertionSort` with `summaryOrder` is exactly a stable descending
sort: an element is inserted before the first element whose total is
strictly smaller, so ties keep the employees-list order, matching the
stable `Array.prototype.sort`. -/
def summaries (employees : List Employee) (events : List ScheduleEvent) :
    List EmployeeSummary :=
  List.insertionSort summaryOrder (employees.map (mkRow events))

/-! ## Schedule-events API routes (src/app/api/schedule-events/[id]/route.ts)

The handlers below embed the request-handling logic of the `POST`,
`PATCH` and `DELETE` routes.  The body of an `EventPayload` carries each
JSON field as an `Option`; timestamps are already-parsed minute
instants.  The Supabase client the routes call into is not part of
src/: its behaviour (`.insert`, `.update().eq(id)`, `.delete().eq(id)`,
`.single()`, and the `end_at > start_at` table constraint) is modelled
from the spec, as noted per definition.  The authentication and
client-initialisation failure paths (401/500) are orthogonal to the
claims and are not modelled: the handlers below describe the
authenticated path. -/

/-- The request body type `EventPayload` of the routes: every field is
optional, and the time/employee fields exist in both snake_case and
camelCase spellings. -/
structure EventPayload where
  title : Option String := none
  description : Option String := none
  start_at : Option ℤ := none
  end_at : Option ℤ := none
  employee_id : Option String := none
  color : Option String := none
  start : Option ℤ := none
  «end» : Option ℤ := none
  employeeId : Option String := none
deriving DecidableEq, Repr

/-- JavaScript truthiness test for an optional string field: `!x` is
true when the field is absent (`undefined`) or the empty string. -/
def jsFalsyStr (o : Option String) : Bool :=
  match o with
  | none => true
  | some s => s == ""

/-- `payload.start_at ?? payload.start` (route.ts:76). -/
def EventPayload.resolvedStart (p : EventPayload) : Option ℤ :=
  p.start_at <|> p.start

/-- `payload.end_at ?? payload.end` (route.ts:77). -/
def EventPayload.resolvedEnd (p : EventPayload) : Option ℤ :=
  p.end_at <|> p.«end»

/-- `payload.employee_id ?? payload.employeeId` (route.ts:78). -/
def EventPayload.resolvedEmployee (p : EventPayload) : Option String :=
  p.employee_id <|> p.employeeId

/-- A stored row of the `schedule_events` table. -/
structure EventRow where
  id : String
  title : String
  description : Option String
  start_at : ℤ
  end_at : ℤ
  employee_id : String
  color : Option String
deriving DecidableEq, Repr

/-- The `updates` object the PATCH handler builds (route.ts:68-82): a
column is present exactly when the corresponding payload field (after
alias resolution) was present in the request body. -/
structure Updates where
  title : Option String
  description : Option String
  color : Option String
  start_at : Option ℤ
  end_at : Option ℤ
  employee_id : Option String
deriving DecidableEq, Repr

/-- Building `updates` from the payload (route.ts:68-82). -/
def buildUpdates (p : EventPayload) : Updates :=
  { title := p.title
    description := p.description
    color := p.color
    start_at := p.resolvedStart
    end_at := p.resolvedEnd
    employee_id := p.resolvedEmployee }

/-- `Object.keys(updates).length === 0` (route.ts:85), negated: does the
update object carry at least one column? -/
def Updates.hasAny (u : Updates) : Bool :=
  u.title.isSome || u.description.isSome || u.color.isSome ||
    u.start_at.isSome || u.end_at.isSome || u.employee_id.isSome

/-- Modelled from the spec: the relational store's sparse column update
(`supabase.from("schedule_events").update(updates)` — the Supabase
client itself is not in src/).  A SQL `UPDATE ... SET` assigns exactly
the columns present in `updates` and leaves every other column of the
row untouched; the row id is never assigned. -/
def applyUpdates (u : Updates) (r : EventRow) : EventRow :=
  { id := r.id
    title := u.title.getD r.title
    description := match u.description with
      | none => r.description
      | some d => some d
    start_at := u.start_at.getD r.start_at
    end_at := u.end_at.getD r.end_at
    employee_id := u.employee_id.getD r.employee_id
    color := match u.color with
      | none => r.color
      | some c => some c }

/-- The PATCH handler (route.ts:49-132) on the authenticated path,
returning the HTTP status and the resulting store contents.  An empty
`updates` object answers 400 before touching the store (route.ts:85-90).
The store interaction `update(updates).eq("id", id).select("*").single()`
is modelled from the spec: `.single()` reports an error when no row
matched the id, and the handler surfaces any store error as status 400
(route.ts:123-128) with the store unchanged. -/
def patchHandler (store : List EventRow) (id : String) (p : EventPayload) :
    ℕ × List EventRow :=
  let u := buildUpdates p
  if ¬ u.hasAny then (400, store)
  else
    match store.find? (fun r => r.id == id) with
    | none => (400, store)
    | some _ => (200, store.map (fun r => if r.id == id then applyUpdates u r else r))

/-- The DELETE handler (route.ts:140-187) on the authenticated path.
`delete().eq("id", id).select("*").single()` is modelled from the spec:
`.single()` reports an error when no row matched, surfaced as status 400
(route.ts:178-183) with the store unchanged; otherwise the matching rows
are removed and the snapshot answered with status 200. -/
def deleteHandler (store : List EventRow) (id : String) : ℕ × List EventRow :=
  match store.find? (fun r => r.id == id) with
  | none => (400, store)
  | some _ => (200, store.filter (fun r => !(r.id == id)))

/-- The result of the POST handler: HTTP status, resulting store, and
whether an insert was attempted against the store (used to state where
validation happens relative to the write). -/
structure PostResult where
  status : ℕ
  store : List EventRow
  writeAttempted : Bool
deriving DecidableEq, Repr

/-- The POST handler (route.ts:332-404) on the authenticated path.  The
local validation (route.ts:353-358) is `!title || !startAt || !endAt ||
!employeeId`: it only checks presence (and, via JS falsiness,
non-emptiness of the strings); it performs no comparison of `startAt`
against `endAt`.  When it passes, the insert is attempted.  Modelled
from the spec: the store's `schedule_events` table enforces `end_at >
start_at`, so the insert fails there for an inverted or empty range; the
handler surfaces the store error as status 400 (route.ts:395-400) and no
row is added.  On success the new row (with a store-generated id) is
appended. -/
def postHandler (store : List EventRow) (p : EventPayload) : PostResult :=
  match p.title, p.resolvedStart, p.resolvedEnd, p.resolvedEmployee with
  | some t, some s, some e, some emp =>
    if t == "" || emp == "" then ⟨400, store, false⟩
    else if e ≤ s then ⟨400, store, true⟩
    else
      ⟨200,
        store ++ [{ id := "evt" ++ Nat.repr store.length
                    title := t
                    description := p.description
                    start_at := s
                    end_at := e
                    employee_id := emp
                    color := p.color }],
        true⟩
  | _, _, _, _ => ⟨400, store, false⟩

/-! ## Heatmap interval merging (spec §4.3)

No month-view/heatmap source file is present under src/ (only the spec
describes the per-day bucket aggregation), so the merge procedure is
modelled from the spec. -/

/-- A busy interval of a day bucket, in minutes since midnight. -/
structure Interval where
  start : ℤ
  stop : ℤ
deriving DecidableEq, Repr

/-- Ordering used to sort a bucket's intervals by start. -/
def intervalOrder (a b : Interval) : Prop :=
  a.start ≤ b.start

instance : DecidableRel intervalOrder := fun a b =>
  inferInstanceAs (Decidable (a.start ≤ b.start))

instance : IsTotal Interval intervalOrder :=
  ⟨fun a b => le_total a.start b.start⟩

instance : IsTrans Interval intervalOrder :=
  ⟨fun _ _ _ h h' => le_trans h h'⟩

/-- Modelled from the spec: the fold of §4.3 — "merge any interval whose
start is ≤ the running merge's end (treating touching and overlapping
intervals identically) into the running interval".  `cur` is the running
merged interval; folding an interval in extends the running end. -/
def mergeSorted (cur : Interval) : List Interval → List Interval
  | [] => [cur]
  | i :: rest =>
    if i.start ≤ cur.stop then
      mergeSorted { cur with stop := max cur.stop i.stop } rest
    else
      cur :: mergeSorted i rest

/-- Modelled from the spec: the merged interval list of a day bucket
(§4.3) — "sort the bucket's intervals by start, then merge" with the
fold above.  The heatmap source itself is missing from src/. -/
def mergeIntervals (l : List Interval) : List Interval :=
  match List.insertionSort intervalOrder l with
  | [] => []
  | x :: xs => mergeSorted x xs

/-- A point `t` lies in the (closed) interval `i`. -/
def Interval.memPt (i : Interval) (t : ℤ) : Prop :=
  i.start ≤ t ∧ t ≤ i.stop

/-- A point lies in some interval of the list. -/
def coveredBy (l : List Interval) (t : ℤ) : Prop :=
  ∃ i ∈ l, i.memPt t

/-! ## Color utilities (src/unnamed/part_005 and part_006, colorUtils)

JavaScript numbers are embedded as `JsNum`: either NaN or an exact
rational.  The only non-rational operation reached by these functions is
`Math.pow(x, 2.4)` inside the gamma correction; the embedding is
parametrised by that real-valued map `g : ℚ → ℚ` (applied only to
non-NaN inputs, exactly as `Math.pow` is in the source), and every
theorem below holds for all `g`. -/

/-- A JavaScript number: NaN or a (here: exact) numeric value. -/
inductive JsNum where
  | nan
  | num (q : ℚ)
deriving DecidableEq, Repr

/-- JS addition: NaN propagates. -/
def jsAdd : JsNum → JsNum → JsNum
  | .num a, .num b => .num (a + b)
  | _, _ => .nan

/-- JS multiplication: NaN propagates. -/
def jsMul : JsNum → JsNum → JsNum
  | .num a, .num b => .num (a * b)
  | _, _ => .nan

/-- JS `>` comparison: any comparison with NaN is false. -/
def jsGt : JsNum → JsNum → Bool
  | .num a, .num b => decide (b < a)
  | _, _ => false

/-- Whitespace skipped by JS `parseInt` (ASCII subset: space and the
control characters U+0009 through U+000D). -/
def isJsSpace (c : Char) : Bool :=
  let cp := c.toNat
  cp == 32 || (9 ≤ cp && cp ≤ 13)

/-- Value of a hexadecimal digit character, if it is one (working on the
code point: 48–57 are `0`–`9`, 97–102 are `a`–`f`, 65–70 are `A`–`F`). -/
def hexVal (c : Char) : Option ℕ :=
  let cp := c.toNat
  if 48 ≤ cp && cp ≤ 57 then some (cp - 48)
  else if 97 ≤ cp && cp ≤ 102 then some (cp - 87)
  else if 65 ≤ cp && cp ≤ 70 then some (cp - 55)
  else none

/-- Value of a decimal digit character, if it is one. -/
def decVal (c : Char) : Option ℕ :=
  let cp := c.toNat
  if 48 ≤ cp && cp ≤ 57 then some (cp - 48) else none

/-- Accumulate a digit list in the given base. -/
def digitsVal (base : ℕ) (ds : List ℕ) : ℕ :=
  ds.foldl (fun acc d => base * acc + d) 0

/-- JS `parseInt(s, 16)`: skip leading whitespace, optional sign,
optional `0x`/`0X`, then the longest run of hex digits; NaN when that
run is empty. -/
def parseIntBase16 (l : List Char) : JsNum :=
  let l1 := l.dropWhile isJsSpace
  let signAndRest : ℤ × List Char :=
    match l1 with
    | '-' :: r => (-1, r)
    | '+' :: r => (1, r)
    | r => (1, r)
  let l3 : List Char :=
    match signAndRest.2 with
    | '0' :: 'x' :: r => r
    | '0' :: 'X' :: r => r
    | r => r
  let ds := (l3.takeWhile (fun c => (hexVal c).isSome)).filterMap hexVal
  if ds.isEmpty then .nan
  else .num ((signAndRest.1 * (digitsVal 16 ds : ℤ) : ℤ) : ℚ)

/-- JS `parseInt(s, 10)`: like base 16 but without the `0x` form. -/
def parseIntBase10 (l : List Char) : JsNum :=
  let l1 := l.dropWhile isJsSpace
  let signAndRest : ℤ × List Char :=
    match l1 with
    | '-' :: r => (-1, r)
    | '+' :: r => (1, r)
    | r => (1, r)
  let ds := (signAndRest.2.takeWhile (fun c => (decVal c).isSome)).filterMap decVal
  if ds.isEmpty then .nan
  else .num ((signAndRest.1 * (digitsVal 10 ds : ℤ) : ℤ) : ℚ)

/-- JS `hex.replace("#", "")`: remove the first occurrence of `#`. -/
def removeFirstHashChar : List Char → List Char
  | [] => []
  | c :: rest => if c == '#' then rest else c :: removeFirstHashChar rest

/-- `hexToRgb` (part_005:17-40, part_006:6-26): strip the first `#`;
a 3-character string doubles each character, a 6-character string is
split into pairs; any other length is rejected.  Note: the channels are
`parseInt(..., 16)` results and may be NaN — the function still returns
an object (a `some`) in that case, exactly as the source does. -/
def hexToRgb (hex : String) : Option (JsNum × JsNum × JsNum) :=
  match removeFirstHashChar hex.toList with
  | [a, b, c] =>
    some (parseIntBase16 [a, a], parseIntBase16 [b, b], parseIntBase16 [c, c])
  | [a, b, c, d, e, f] =>
    some (parseIntBase16 [a, b], parseIntBase16 [c, d], parseIntBase16 [e, f])
  | _ => none

/-- Regex `\s` (ASCII subset, matching the whitespace the inputs here
can contain). -/
def isRegexSpace (c : Char) : Bool := isJsSpace c

/-- Attempt to match `rgba?\((\d+),\s*(\d+),\s*(\d+)(?:,\s*[\d.]+)?\)`
at the head of the character list, returning the three captured digit
groups.  The pattern is deterministic — every greedy run (`\d+`, `\s*`,
`[\d.]+`) is followed by a character outside its class — so a
backtracking-free matcher is exact. -/
def matchRgbAt (l : List Char) : Option (List Char × List Char × List Char) :=
  match l with
  | 'r' :: 'g' :: 'b' :: rest =>
    let rest1 := match rest with
      | 'a' :: r => r
      | r => r
    match rest1 with
    | '(' :: r2 =>
      let d1 := r2.takeWhile Char.isDigit
      let r3 := r2.dropWhile Char.isDigit
      if d1.isEmpty then none
      else
        match r3 with
        | ',' :: r4 =>
          let r5 := r4.dropWhile isRegexSpace
          let d2 := r5.takeWhile Char.isDigit
          let r6 := r5.dropWhile Char.isDigit
          if d2.isEmpty then none
          else
            match r6 with
            | ',' :: r7 =>
              let r8 := r7.dropWhile isRegexSpace
              let d3 := r8.takeWhile Char.isDigit
              let r9 := r8.dropWhile Char.isDigit
              if d3.isEmpty then none
              else
                match r9 with
                | ')' :: _ => some (d1, d2, d3)
                | ',' :: r10 =>
                  let r11 := r10.dropWhile isRegexSpace
                  let frac := r11.takeWhile (fun c => c.isDigit || c == '.')
                  let r12 := r11.dropWhile (fun c => c.isDigit || c == '.')
                  if frac.isEmpty then none
                  else
                    match r12 with
                    | ')' :: _ => some (d1, d2, d3)
                    | _ => none
                | _ => none
            | _ => none
        | _ => none
    | _ => none
  | _ => none

/-- `String.prototype.match`: scan left to right for the first position
where the pattern matches. -/
def scanRgb : List Char → Option (List Char × List Char × List Char)
  | [] => matchRgbAt []
  | c :: rest =>
    match matchRgbAt (c :: rest) with
    | some r => some r
    | none => scanRgb rest

/-- `parseRgbString` (part_005:52-67, part_006:33-46): match the rgb/rgba
pattern anywhere in the string and parse the three captured groups with
`parseInt(..., 10)`. -/
def parseRgbString (rgbString : String) : Option (JsNum × JsNum × JsNum) :=
  match scanRgb rgbString.toList with
  | some (d1, d2, d3) => some (parseIntBase10 d1, parseIntBase10 d2, parseIntBase10 d3)
  | none => none

/-- Is the character a hex digit (regex class `[0-9A-Fa-f]`)? -/
def isHexDigitChar (c : Char) : Bool :=
  (hexVal c).isSome

/-- Regex `/^[0-9A-Fa-f]{3,6}$/.test(color)`. -/
def hexShapeTest (l : List Char) : Bool :=
  decide (3 ≤ l.length) && decide (l.length ≤ 6) && l.all isHexDigitChar

/-- Does the string start with the given characters? -/
def startsWithChars : List Char → List Char → Bool
  | _, [] => true
  | [], _ :: _ => false
  | c :: rest, p :: ps => c == p && startsWithChars rest ps

/-- `parseColor` (part_005:80-94, part_006:53-65): strings starting with
`"rgb"` go through the rgb parser; strings starting with `#` or shaped
like a bare 3–6 digit hex value go through `hexToRgb`; everything else
is unparseable. -/
def parseColor (color : String) : Option (JsNum × JsNum × JsNum) :=
  if startsWithChars color.toList "rgb".toList then parseRgbString color
  else if startsWithChars color.toList ['#'] || hexShapeTest color.toList then
    hexToRgb color
  else none

/-- One channel of the gamma-corrected normalisation inside
`calculateLuminance` (part_005:117-127): `val / 255`, then the linear
branch below `0.03928`, otherwise `Math.pow((n + 0.055) / 1.055, 2.4)`
— the power map is the parameter `g`.  A NaN channel stays NaN (in JS
the `<=` test on NaN is false and `Math.pow` of NaN is NaN). -/
def gammaChannel (g : ℚ → ℚ) : JsNum → JsNum
  | .nan => .nan
  | .num q =>
    let normalized := q / 255
    if normalized ≤ 0.03928 then .num (normalized / 12.92)
    else .num (g ((normalized + 0.055) / 1.055))

/-- `calculateLuminance` (part_005:115-132, part_006:74-85):
`0.2126 * rs + 0.7152 * gs + 0.0722 * bs`. -/
def calculateLuminance (g : ℚ → ℚ) (r gr b : JsNum) : JsNum :=
  jsAdd
    (jsAdd (jsMul (.num 0.2126) (gammaChannel g r))
      (jsMul (.num 0.7152) (gammaChannel g gr)))
    (jsMul (.num 0.0722) (gammaChannel g b))

/-- `getContrastTextColor` (part_005:150-169, part_006:93-108): parse the
background color; on failure answer white; otherwise compare the
luminance against the threshold — black above, white otherwise. -/
def getContrastTextColor (g : ℚ → ℚ) (backgroundColor : String)
    (threshold : JsNum) : String :=
  match parseColor backgroundColor with
  | none => "#ffffff"
  | some (r, gr, b) =>
    if jsGt (calculateLuminance g r gr b) threshold then "#000000" else "#ffffff"

/-! ## Helper lemmas -/

lemma jsAdd_nan_right (x : JsNum) : jsAdd x .nan = .nan := by cases x <;> rfl

lemma jsAdd_nan_left (x : JsNum) : jsAdd .nan x = .nan := by cases x <;> rfl

lemma jsMul_nan_right (x : JsNum) : jsMul x .nan = .nan := by cases x <;> rfl

lemma jsGt_nan_left (x : JsNum) : jsGt .nan x = false := by cases x <;> rfl

lemma minutesFor_cons (e : ScheduleEvent) (es : List ScheduleEvent) (eid : String) :
    minutesFor (e :: es) eid
      = (if e.employee_id = eid then e.duration else 0) + minutesFor es eid := by
  by_cases h : e.employee_id = eid <;> simp [minutesFor, List.filter_cons, h]

lemma sum_map_add_int {α : Type} (f g : α → ℤ) (l : List α) :
    (l.map (fun x => f x + g x)).sum = (l.map f).sum + (l.map g).sum := by
  induction l with
  | nil => simp
  | cons x xs ih => simp only [List.map_cons, List.sum_cons, ih]; ring

lemma sum_ite_id_of_nodup (c : String) (d : ℤ) (emps : List Employee)
    (h : (emps.map Employee.id).Nodup) :
    (emps.map (fun emp => if c = emp.id then d else 0)).sum
      = if c ∈ emps.map Employee.id then d else 0 := by
  induction emps with
  | nil => simp
  | cons emp rest ih =>
    rw [List.map_cons, List.nodup_cons] at h
    obtain ⟨hnotin, hnd⟩ := h
    rw [List.map_cons, List.sum_cons, ih hnd]
    by_cases hc : c = emp.id
    · subst hc
      simp [hnotin]
    · simp [hc]

lemma sum_minutesFor (emps : List Employee) (events : List ScheduleEvent)
    (hnd : (emps.map Employee.id).Nodup)
    (hcov : ∀ e ∈ events, e.employee_id ∈ emps.map Employee.id) :
    (emps.map (fun emp => minutesFor events emp.id)).sum
      = (events.map ScheduleEvent.duration).sum := by
  revert hcov
  induction events with
  | nil => intro _; simp [minutesFor]
  | cons e es ih =>
    intro hcov
    have hcov' : ∀ x ∈ es, x.employee_id ∈ emps.map Employee.id :=
      fun x hx => hcov x (List.mem_cons_of_mem _ hx)
    have h1 : (emps.map (fun emp => minutesFor (e :: es) emp.id)).sum
        = (emps.map (fun emp =>
            (if e.employee_id = emp.id then e.duration else 0)
              + minutesFor es emp.id)).sum := by
      simp only [minutesFor_cons]
    rw [h1, sum_map_add_int, sum_ite_id_of_nodup _ _ _ hnd, ih hcov',
      if_pos (hcov e (List.mem_cons_self _ _))]
    simp

lemma filter_orderedInsert_summary (m : ℤ) (a : EmployeeSummary)
    (l : List EmployeeSummary) :
    (List.orderedInsert summaryOrder a l).filter (fun r => r.totalMinutes == m)
      = if a.totalMinutes = m
          then a :: l.filter (fun r => r.totalMinutes == m)
          else l.filter (fun r => r.totalMinutes == m) := by
  induction l with
  | nil => by_cases h : a.totalMinutes = m <;> simp [List.orderedInsert, h]
  | cons b l ih =>
    rw [List.orderedInsert]
    by_cases hab : summaryOrder a b
    · rw [if_pos hab]
      by_cases ham : a.totalMinutes = m <;> simp [List.filter_cons, ham]
    · rw [if_neg hab]
      have hlt : a.totalMinutes < b.totalMinutes := lt_of_not_le fun hle => hab hle
      by_cases hbm : b.totalMinutes = m
      · have ham : ¬ a.totalMinutes = m := by omega
        simp [List.filter_cons, hbm, ham, ih]
      · by_cases ham : a.totalMinutes = m <;> simp [List.filter_cons, hbm, ham, ih]

lemma filter_insertionSort_summary (m : ℤ) (l : List EmployeeSummary) :
    (List.insertionSort summaryOrder l).filter (fun r => r.totalMinutes == m)
      = l.filter (fun r => r.totalMinutes == m) := by
  induction l with
  | nil => rfl
  | cons a l ih =>
    rw [List.insertionSort, filter_orderedInsert_summary, ih]
    by_cases ham : a.totalMinutes = m <;> simp [List.filter_cons, ham]

lemma coveredBy_cons (x : Interval) (xs : List Interval) (t : ℤ) :
    coveredBy (x :: xs) t ↔ x.memPt t ∨ coveredBy xs t := by
  simp [coveredBy]

lemma coveredBy_perm {l₁ l₂ : List Interval} (t : ℤ) (h : List.Perm l₁ l₂) :
    coveredBy l₁ t ↔ coveredBy l₂ t :=
  ⟨fun ⟨i, hi, hp⟩ => ⟨i, h.mem_iff.mp hi, hp⟩,
    fun ⟨i, hi, hp⟩ => ⟨i, h.mem_iff.mpr hi, hp⟩⟩

lemma mergeSorted_head (l : List Interval) :
    ∀ cur : Interval, ∃ s tail, mergeSorted cur l = ⟨cur.start, s⟩ :: tail := by
  induction l with
  | nil => intro cur; exact ⟨cur.stop, [], rfl⟩
  | cons i rest ih =>
    intro cur
    rw [mergeSorted]
    by_cases h : i.start ≤ cur.stop
    · rw [if_pos h]
      obtain ⟨s, tail, heq⟩ := ih { cur with stop := max cur.stop i.stop }
      exact ⟨s, tail, heq⟩
    · rw [if_neg h]
      exact ⟨cur.stop, mergeSorted i rest, rfl⟩

lemma mergeSorted_chain (l : List Interval) :
    ∀ cur : Interval,
      (mergeSorted cur l).Chain' (fun a b => a.stop < b.start) := by
  induction l with
  | nil => intro cur; simp [mergeSorted]
  | cons i rest ih =>
    intro cur
    rw [mergeSorted]
    by_cases h : i.start ≤ cur.stop
    · rw [if_pos h]; exact ih _
    · rw [if_neg h]
      refine List.chain'_cons'.mpr ⟨?_, ih i⟩
      intro b hb
      obtain ⟨s, tail, heq⟩ := mergeSorted_head rest i
      rw [heq] at hb
      simp only [List.head?_cons, Option.mem_def, Option.some.injEq] at hb
      subst hb
      exact lt_of_not_le h

lemma mergeSorted_covered (t : ℤ) (l : List Interval) :
    ∀ cur : Interval, (∀ i ∈ l, cur.start ≤ i.start) → l.Sorted intervalOrder →
      (coveredBy (mergeSorted cur l) t ↔ cur.memPt t ∨ coveredBy l t) := by
  induction l with
  | nil =>
    intro cur _ _
    simp [mergeSorted, coveredBy]
  | cons i rest ih =>
    intro cur hlb hsort
    obtain ⟨hi, hrest⟩ := List.sorted_cons.mp hsort
    have hci : cur.start ≤ i.start := hlb i (List.mem_cons_self _ _)
    rw [mergeSorted]
    by_cases h : i.start ≤ cur.stop
    · rw [if_pos h]
      have hlb' : ∀ j ∈ rest,
          ({ cur with stop := max cur.stop i.stop } : Interval).start ≤ j.start :=
        fun j hj => le_trans hci (hi j hj)
      rw [ih _ hlb' hrest]
      have key : ({ cur with stop := max cur.stop i.stop } : Interval).memPt t
          ↔ cur.memPt t ∨ i.memPt t := by
        simp only [Interval.memPt]
        rcases le_total cur.stop i.stop with h' | h'
        · rw [max_eq_right h']
          omega
        · rw [max_eq_left h']
          omega
      rw [key, coveredBy_cons]
      tauto
    · rw [if_neg h]
      rw [coveredBy_cons, ih i hi hrest, coveredBy_cons]

/-! ## Claims -/

/-- C1: for every displayed day, every dragged event and every new start
time, `handleEventDrop` computes the new end as the new start plus the
original duration, so the shifted end minus the shifted start equals the
original end minus the original start — duration is preserved exactly. -/
theorem claim1_drag_drop_duration_preserved
    (currentDate : ℤ) (evStart evEnd nextStart : TimeStr) :
    (handleEventDropTimes currentDate evStart evEnd nextStart).2
        - (handleEventDropTimes currentDate evStart evEnd nextStart).1
      = parseTime currentDate evEnd - parseTime currentDate evStart := by
  simp [handleEventDropTimes]

/-- C8 counterexample: the claim says the duration computation is
`max(0, end − start)` everywhere, including the drag/drop handler; but
`handleEventDrop` (schedule/page.tsx:279-281) uses the raw unclamped
`diff`, which is `-60` (negative) for a 10:00 start and 09:00 end. -/
theorem claim8_counterexample :
    dropDurationMinutes 600 540 = -60 ∧ ¬ (0 ≤ dropDurationMinutes 600 540) := by
  decide

/-- C8 (amended): the duration computation of the workload aggregation
(staff/page.tsx:398-400) is `max(0, end − start)` — never negative, and
exactly 0 whenever end ≤ start; the drag/drop handler, by contrast,
computes the raw difference, which is negative whenever end < start. -/
theorem claim8_duration_clamp_amended (start_at end_at : ℤ) :
    0 ≤ eventDurationMinutes start_at end_at
      ∧ (end_at ≤ start_at → eventDurationMinutes start_at end_at = 0)
      ∧ (end_at < start_at → dropDurationMinutes start_at end_at < 0) := by
  refine ⟨le_max_right _ _, fun h => ?_, fun h => ?_⟩
  · simp [eventDurationMinutes]
    omega
  · simp [dropDurationMinutes]
    omega

/-- C8 witness: the amended theorem applied at start 10:00, end 09:00. -/
theorem claim8_witness :
    0 ≤ eventDurationMinutes 600 540 ∧ eventDurationMinutes 600 540 = 0
      ∧ dropDurationMinutes 600 540 < 0 :=
  ⟨(claim8_duration_clamp_amended 600 540).1,
    (claim8_duration_clamp_amended 600 540).2.1 (by decide),
    (claim8_duration_clamp_amended 600 540).2.2 (by decide)⟩

/-- C10: for every gamma map, every input string and every threshold,
`getContrastTextColor` is total and returns exactly one of `"#000000"`
and `"#ffffff"`; any background that does not parse yields `"#ffffff"`,
including hex-shaped strings whose channels parse to NaN (a NaN
luminance compares false against every threshold). -/
theorem claim10_contrast_total (g : ℚ → ℚ) (bg : String) (t : JsNum) :
    (getContrastTextColor g bg t = "#000000"
        ∨ getContrastTextColor g bg t = "#ffffff")
      ∧ (parseColor bg = none → getContrastTextColor g bg t = "#ffffff")
      ∧ (∀ r gr b, parseColor bg = some (r, gr, b) →
          (r = .nan ∨ gr = .nan ∨ b = .nan) →
          getContrastTextColor g bg t = "#ffffff") := by
  refine ⟨?_, ?_, ?_⟩
  · unfold getContrastTextColor
    rcases parseColor bg with _ | ⟨r, gr, b⟩
    · exact Or.inr rfl
    · by_cases h : jsGt (calculateLuminance g r gr b) t = true
      · exact Or.inl (by simp [h])
      · exact Or.inr (by simp [h])
  · intro h
    unfold getContrastTextColor
    rw [h]
  · intro r gr b hparse hnan
    unfold getContrastTextColor
    rw [hparse]
    have hlum : calculateLuminance g r gr b = .nan := by
      rcases hnan with h | h | h <;> subst h <;>
        simp [calculateLuminance, gammaChannel, jsMul_nan_right,
          jsAdd_nan_right, jsAdd_nan_left]
    simp [hlum, jsGt_nan_left]

/-- C10 witness: the theorem applied to the hex-shaped string `"#zzz"`,
whose three channels are all NaN. -/
theorem claim10_witness :
    getContrastTextColor (fun q => q) "#zzz" (.num (1 / 2)) = "#ffffff" :=
  (claim10_contrast_total (fun q => q) "#zzz" (.num (1 / 2))).2.2
    .nan .nan .nan (by decide) (Or.inl rfl)

/-- C6: for every PATCH payload, only the fields explicitly present in
the partial (after alias resolution) are modified in the stored event;
every omitted field keeps its previous value, and a present field takes
the given value — sparse patch semantics. -/
theorem claim6_sparse_patch (p : EventPayload) (r : EventRow) :
    (applyUpdates (buildUpdates p) r).id = r.id
      ∧ (p.title = none → (applyUpdates (buildUpdates p) r).title = r.title)
      ∧ (∀ s, p.title = some s → (applyUpdates (buildUpdates p) r).title = s)
      ∧ (p.description = none →
          (applyUpdates (buildUpdates p) r).description = r.description)
      ∧ (p.color = none → (applyUpdates (buildUpdates p) r).color = r.color)
      ∧ (p.start_at = none → p.start = none →
          (applyUpdates (buildUpdates p) r).start_at = r.start_at)
      ∧ (p.end_at = none → p.«end» = none →
          (applyUpdates (buildUpdates p) r).end_at = r.end_at)
      ∧ (p.employee_id = none → p.employeeId = none →
          (applyUpdates (buildUpdates p) r).employee_id = r.employee_id) := by
  refine ⟨rfl, fun h => ?_, fun s h => ?_, fun h => ?_, fun h => ?_,
    fun h h' => ?_, fun h h' => ?_, fun h h' => ?_⟩ <;>
    simp [applyUpdates, buildUpdates, EventPayload.resolvedStart,
      EventPayload.resolvedEnd, EventPayload.resolvedEmployee, h]
  all_goals simp [h']

/-- C6 witness: the spec's example — `update(id, {title:"New"})` on an
event whose description is `"D"` changes only the title and leaves the
description untouched. -/
theorem claim6_witness :
    (applyUpdates (buildUpdates { title := some "New" })
        { id := "e1", title := "Old", description := some "D", start_at := 540,
          end_at := 570, employee_id := "r1", color := none }).description
        = some "D"
      ∧ (applyUpdates (buildUpdates { title := some "New" })
          { id := "e1", title := "Old", description := some "D", start_at := 540,
            end_at := 570, employee_id := "r1", color := none }).title = "New" :=
  ⟨(claim6_sparse_patch { title := some "New" }
      { id := "e1", title := "Old", description := some "D", start_at := 540,
        end_at := 570, employee_id := "r1", color := none }).2.2.2.1 rfl,
    (claim6_sparse_patch { title := some "New" }
      { id := "e1", title := "Old", description := some "D", start_at := 540,
        end_at := 570, employee_id := "r1", color := none }).2.2.1 "New" rfl⟩

/-- C4 counterexample: on a store with no matching row, both PATCH and
DELETE answer status 400 — not 404 as the claim states — because the
handlers surface the store's `.single()` error through their generic
error branch (route.ts:123-128, 178-183). -/
theorem claim4_counterexample :
    (patchHandler [] "missing" { title := some "X" }).1 = 400
      ∧ (patchHandler [] "missing" { title := some "X" }).1 ≠ 404
      ∧ (deleteHandler [] "missing").1 = 400
      ∧ (deleteHandler [] "missing").1 ≠ 404 := by
  decide

/-- C4 (amended): `update(id, partial)` and `delete(id)` fail whenever no
event with the given id exists — surfaced at the HTTP boundary as status
400 (the store's no-row error through the generic error branch, not
404) — and in that case the store's state is unchanged. -/
theorem claim4_missing_id_amended
    (store : List EventRow) (id : String) (p : EventPayload)
    (h : store.find? (fun r => r.id == id) = none) :
    patchHandler store id p = (400, store)
      ∧ deleteHandler store id = (400, store) := by
  constructor
  · unfold patchHandler
    simp only [h]
    split <;> rfl
  · unfold deleteHandler
    simp only [h]

/-- C4 witness: the amended theorem applied to the empty store. -/
theorem claim4_witness :
    patchHandler [] "missing" { title := some "X" } = (400, [])
      ∧ deleteHandler [] "missing" = (400, []) :=
  claim4_missing_id_amended [] "missing" { title := some "X" } rfl

/-- C3 counterexample: the draft `{title:"X", start:10:00, end:09:00,
resourceId:"r1"}` has start not strictly before end, yet the POST
handler's local validation (route.ts:353-358) passes it and the write IS
attempted against the store — refuting "rejected ... before any write is
attempted"; the store's own constraint then rejects it (status 400, no
event created). -/
theorem claim3_counterexample :
    (postHandler []
        { title := some "X", start_at := some 600, end_at := some 540,
          employee_id := some "r1" }).writeAttempted = true
      ∧ (postHandler []
          { title := some "X", start_at := some 600, end_at := some 540,
            employee_id := some "r1" }).status = 400
      ∧ (postHandler []
          { title := some "X", start_at := some 600, end_at := some 540,
            employee_id := some "r1" }).store = [] := by
  decide

/-- C3 (amended): `create` rejects with status 400 and creates no event
any draft whose title is missing or empty, whose start or end is
missing, whose resourceId is missing or empty — these before any write
is attempted — or whose start is not strictly before its end; the
inverted-range case is not validated locally but rejected by the store's
`end_at > start_at` constraint, so in every such case no event is
created. -/
theorem claim3_create_validation_amended (store : List EventRow) (p : EventPayload)
    (h : jsFalsyStr p.title = true
      ∨ p.resolvedStart = none
      ∨ p.resolvedEnd = none
      ∨ jsFalsyStr p.resolvedEmployee = true
      ∨ ∃ s e, p.resolvedStart = some s ∧ p.resolvedEnd = some e ∧ e ≤ s) :
    (postHandler store p).status = 400 ∧ (postHandler store p).store = store := by
  rcases ht : p.title with _ | t <;>
    rcases hs : p.resolvedStart with _ | s <;>
      rcases he : p.resolvedEnd with _ | e <;>
        rcases hemp : p.resolvedEmployee with _ | emp <;>
          simp [postHandler, ht, hs, he, hemp]
  rw [ht, hs, he, hemp] at h
  rcases h with h | h | h | h | ⟨s', e', hs', he', hle⟩
  · have ht0 : t = "" := by simpa [jsFalsyStr] using h
    simp [ht0]
  · exact absurd h (by simp)
  · exact absurd h (by simp)
  · have he0 : emp = "" := by simpa [jsFalsyStr] using h
    simp [he0]
  · obtain rfl : s' = s := (Option.some.inj hs').symm
    obtain rfl : e' = e := (Option.some.inj he').symm
    by_cases h0 : (t = "" ∨ emp = "")
    · simp [h0]
    · simp [h0, hle]

/-- C3 witness: the amended theorem applied to the inverted-range
draft. -/
theorem claim3_witness :
    (postHandler []
        { title := some "X", start_at := some 600, end_at := some 540,
          employee_id := some "r1" }).status = 400
      ∧ (postHandler []
          { title := some "X", start_at := some 600, end_at := some 540,
            employee_id := some "r1" }).store = [] :=
  claim3_create_validation_amended []
    { title := some "X", start_at := some 600, end_at := some 540,
      employee_id := some "r1" }
    (Or.inr (Or.inr (Or.inr (Or.inr ⟨600, 540, rfl, rfl, by decide⟩))))

/-- C2 counterexample: a range-query result containing one 30-minute
event for an employee id that is absent from the fetched employees list
contributes to no summary row — the rows are built from the employees
list only (staff/page.tsx:416) — so the row totals sum to 0 while the
event durations sum to 30. -/
theorem claim2_counterexample :
    ((summaries [] [⟨"e1", "Standup", none, 540, 570, "r1", none⟩]).map
        (fun r => r.totalMinutes)).sum
      ≠ ([(⟨"e1", "Standup", none, 540, 570, "r1", none⟩ : ScheduleEvent)].map
          ScheduleEvent.duration).sum := by
  decide

/-- C2 (amended): when the fetched employees list has pairwise-distinct
ids and contains the employee id of every event in the collection, the
sum of `totalMinutes` over all summary rows equals the sum of the
durations of all events in the collection. -/
theorem claim2_total_conservation_amended
    (emps : List Employee) (events : List ScheduleEvent)
    (hnd : (emps.map Employee.id).Nodup)
    (hcov : ∀ e ∈ events, e.employee_id ∈ emps.map Employee.id) :
    ((summaries emps events).map (fun r => r.totalMinutes)).sum
      = (events.map ScheduleEvent.duration).sum := by
  have hperm : List.Perm (summaries emps events) (emps.map (mkRow events)) :=
    List.perm_insertionSort _ _
  rw [(hperm.map (fun r => r.totalMinutes)).sum_eq, List.map_map]
  have hcomp : ((fun r : EmployeeSummary => r.totalMinutes) ∘ mkRow events)
      = fun emp => minutesFor events emp.id := rfl
  rw [hcomp]
  exact sum_minutesFor emps events hnd hcov

/-- C2 witness: the amended theorem at one employee and one 30-minute
event assigned to it. -/
theorem claim2_witness :
    ((summaries [⟨"r1", "A"⟩] [⟨"e1", "Standup", none, 540, 570, "r1", none⟩]).map
        (fun r => r.totalMinutes)).sum
      = ([(⟨"e1", "Standup", none, 540, 570, "r1", none⟩ : ScheduleEvent)].map
          ScheduleEvent.duration).sum :=
  claim2_total_conservation_amended [⟨"r1", "A"⟩]
    [⟨"e1", "Standup", none, 540, 570, "r1", none⟩] (by decide) (by decide)

/-- C5 counterexample: two employees with equal (zero) totals come out in
employees-list order, not in resource-id order: the comparator
(staff/page.tsx:430) keys only on `totalMinutes`, so feeding the same two
resources in the two list orders yields the two opposite tie orders —
the tie-break is not the resource id. -/
theorem claim5_counterexample :
    (summaries [⟨"b", "B"⟩, ⟨"a", "A"⟩] []).map (fun r => r.id) = ["b", "a"]
      ∧ (summaries [⟨"a", "A"⟩, ⟨"b", "B"⟩] []).map (fun r => r.id) = ["a", "b"]
      ∧ (summaries [⟨"b", "B"⟩, ⟨"a", "A"⟩] []).map (fun r => r.totalMinutes)
          = [0, 0] := by
  decide

/-- C5 (amended): summary rows are ordered descending by `totalMinutes`,
and rows with equal totals keep the relative order of the employees list
(JavaScript's stable sort with a comparator on `totalMinutes` alone):
for every total `m`, the rows carrying `m` appear exactly in the order
the employees list induces.  The order is therefore deterministic for a
fixed employees list and event collection, but the tie-break is the
input order, not the resource id. -/
theorem claim5_sort_amended (emps : List Employee) (events : List ScheduleEvent) :
    List.Sorted summaryOrder (summaries emps events)
      ∧ ∀ m : ℤ,
          (summaries emps events).filter (fun r => r.totalMinutes == m)
            = (emps.map (mkRow events)).filter (fun r => r.totalMinutes == m) :=
  ⟨List.sorted_insertionSort _ _, fun m => filter_insertionSort_summary m _⟩

/-- C7: every summary row satisfies the aggregation arithmetic:
`totalMinutes` is the sum of the (clamped) durations of the events with
that resource id, `eventCount` their number, `totalHours = totalMinutes /
60`, and `avgHours = totalHours / eventCount` when the count is nonzero
and 0 otherwise — division by zero never occurs. -/
theorem claim7_row_arithmetic (emps : List Employee) (events : List ScheduleEvent)
    (r : EmployeeSummary) (hr : r ∈ summaries emps events) :
    r.totalMinutes = minutesFor events r.id
      ∧ r.eventCount = countFor events r.id
      ∧ r.totalHours = (r.totalMinutes : ℚ) / 60
      ∧ r.avgHours
          = if r.eventCount = 0 then 0 else r.totalHours / (r.eventCount : ℚ) := by
  have hmem : r ∈ emps.map (mkRow events) :=
    (List.perm_insertionSort summaryOrder _).mem_iff.mp hr
  obtain ⟨emp, _, rfl⟩ := List.mem_map.mp hmem
  exact ⟨rfl, rfl, rfl, rfl⟩

/-- C7 witness: the theorem applied to the row of a store with one
30-minute event. -/
theorem claim7_witness :
    (mkRow [⟨"e1", "Standup", none, 540, 570, "r1", none⟩] ⟨"r1", "A"⟩).totalMinutes
        = minutesFor [⟨"e1", "Standup", none, 540, 570, "r1", none⟩]
            (mkRow [⟨"e1", "Standup", none, 540, 570, "r1", none⟩] ⟨"r1", "A"⟩).id
      ∧ (mkRow [⟨"e1", "Standup", none, 540, 570, "r1", none⟩] ⟨"r1", "A"⟩).eventCount
          = countFor [⟨"e1", "Standup", none, 540, 570, "r1", none⟩]
              (mkRow [⟨"e1", "Standup", none, 540, 570, "r1", none⟩] ⟨"r1", "A"⟩).id
      ∧ (mkRow [⟨"e1", "Standup", none, 540, 570, "r1", none⟩] ⟨"r1", "A"⟩).totalHours
          = ((mkRow [⟨"e1", "Standup", none, 540, 570, "r1", none⟩]
              ⟨"r1", "A"⟩).totalMinutes : ℚ) / 60
      ∧ (mkRow [⟨"e1", "Standup", none, 540, 570, "r1", none⟩] ⟨"r1", "A"⟩).avgHours
          = if (mkRow [⟨"e1", "Standup", none, 540, 570, "r1", none⟩]
                ⟨"r1", "A"⟩).eventCount = 0 then 0
            else (mkRow [⟨"e1", "Standup", none, 540, 570, "r1", none⟩]
                ⟨"r1", "A"⟩).totalHours
              / ((mkRow [⟨"e1", "Standup", none, 540, 570, "r1", none⟩]
                  ⟨"r1", "A"⟩).eventCount : ℚ) :=
  claim7_row_arithmetic [⟨"r1", "A"⟩] [⟨"e1", "Standup", none, 540, 570, "r1", none⟩]
    (mkRow [⟨"e1", "Standup", none, 540, 570, "r1", none⟩] ⟨"r1", "A"⟩)
    (List.mem_singleton.mpr rfl)

/-- C9: merging a day bucket's interval list (sort by start, fold any
interval whose start is ≤ the running merge's end into it) maps the
spec's example `[(9:00,9:30), (9:15,10:00), (11:00,11:30)]` to exactly
`[(9:00,10:00), (11:00,11:30)]`; the output intervals are pairwise
disjoint (each ends strictly before the next begins, touching having
been folded in); and the output covers exactly the same time points as
the input, so it is the minimal disjoint representation of the bucket's
busy time. -/
theorem claim9_interval_merge :
    mergeIntervals [⟨540, 570⟩, ⟨555, 600⟩, ⟨660, 690⟩]
        = [⟨540, 600⟩, ⟨660, 690⟩]
      ∧ (∀ l : List Interval,
          (mergeIntervals l).Chain' (fun a b => a.stop < b.start))
      ∧ ∀ (l : List Interval) (t : ℤ),
          coveredBy (mergeIntervals l) t ↔ coveredBy l t := by
  refine ⟨by decide, fun l => ?_, fun l t => ?_⟩
  · unfold mergeIntervals
    rcases h : List.insertionSort intervalOrder l with _ | ⟨x, xs⟩
    · simp
    · exact mergeSorted_chain xs x
  · unfold mergeIntervals
    have hs := List.sorted_insertionSort intervalOrder l
    have hp := List.perm_insertionSort intervalOrder l
    rcases h : List.insertionSort intervalOrder l with _ | ⟨x, xs⟩
    · rw [h] at hp
      exact coveredBy_perm t hp
    · rw [h] at hs hp
      obtain ⟨hx, hxs⟩ := List.sorted_cons.mp hs
      calc coveredBy (mergeSorted x xs) t
          ↔ x.memPt t ∨ coveredBy xs t := mergeSorted_covered t xs x hx hxs
        _ ↔ coveredBy (x :: xs) t := (coveredBy_cons x xs t).symm
        _ ↔ coveredBy l t := coveredBy_perm t hp

end VisualSchedule
